import Mathlib

set_option maxHeartbeats 1000000

/-!
Shallow embedding of the PDF-statement converter in funciones/pdfconverter.py.

Strings are modelled as List Char, Python floats as exact rationals (the
amounts never go through arithmetic, only through string-to-number parsing,
so Rat is a faithful carrier for the parsed values), and the regular
expressions of the source are embedded as executable matching functions that
reproduce the leftmost, greedy-with-backtracking semantics of the Python re
module for the concrete patterns appearing in the source.
-/

/-- Python whitespace class, as used by str.strip, str.rstrip and the regex
class backslash-s (ASCII part; the lines handled here are ASCII). -/
def isPySpace (c : Char) : Bool :=
  c == ' ' || c == '\t' || c == '\n' || c == '\r' || c == '\x0b' || c == '\x0c'

/-- Boolean test that the first list is a leading segment of the second. -/
def startsWithB : List Char → List Char → Bool
  | [], _ => true
  | _ :: _, [] => false
  | a :: as, b :: bs => a == b && startsWithB as bs

/-- Python substring containment, the operator in on str. -/
def containsSub (needle : List Char) : List Char → Bool
  | [] => startsWithB needle []
  | c :: t => startsWithB needle (c :: t) || containsSub needle t

/-- Python str.rstrip with no argument. -/
def rstrip (l : List Char) : List Char := (l.reverse.dropWhile isPySpace).reverse

/-- Python str.lstrip with no argument. -/
def lstrip (l : List Char) : List Char := l.dropWhile isPySpace

/-- Python str.strip with no argument. -/
def pyStrip (l : List Char) : List Char := lstrip (rstrip l)

/-- Value of a string of decimal digit characters. -/
def digitsToNat (l : List Char) : Nat := l.foldl (fun n c => 10 * n + (c.toNat - 48)) 0

/-- Numerator and denominator of an unsigned decimal string, digits with an
optional dot-and-digits fractional part. -/
def decParts (s : List Char) : Nat × Nat :=
  let ip := s.takeWhile (fun c => c != '.')
  let fp := (s.dropWhile (fun c => c != '.')).drop 1
  (digitsToNat ip * 10 ^ fp.length + digitsToNat fp, 10 ^ fp.length)

/-- Python float() on strings of the shape optional minus, digits, optional
dot and digits, which is the only shape the converter ever feeds it. -/
def pyFloat : List Char → Rat
  | '-' :: r => mkRat (-(Int.ofNat (decParts r).1)) (decParts r).2
  | s => mkRat (Int.ofNat (decParts s).1) (decParts s).2

/-!
The amount token regex of parse_line:
  num_pattern = -?\d+(?:\.\d{3})*(?:,\d{2})
matchNumAt tries the pattern at the head of the list and returns the matched
token together with the remaining characters; the greedy star over the
thousands groups backtracks to the comma test at every group boundary, as the
Python engine does.
-/

def tryComma (acc : List Char) : List Char → Option (List Char × List Char)
  | ',' :: a :: b :: r => if a.isDigit && b.isDigit then some (acc ++ [',', a, b], r) else none
  | _ => none

def tryGroups (acc : List Char) : List Char → Option (List Char × List Char)
  | '.' :: a :: b :: c :: r =>
    if a.isDigit && b.isDigit && c.isDigit then
      match tryGroups (acc ++ ['.', a, b, c]) r with
      | some x => some x
      | none => tryComma acc ('.' :: a :: b :: c :: r)
    else tryComma acc ('.' :: a :: b :: c :: r)
  | s => tryComma acc s

def matchNumCore (s : List Char) : Option (List Char × List Char) :=
  let ds := s.takeWhile Char.isDigit
  if ds.isEmpty then none
  else
    match tryGroups [] (s.dropWhile Char.isDigit) with
    | some (t, rest) => some (ds ++ t, rest)
    | none => none

def matchNumAt : List Char → Option (List Char × List Char)
  | '-' :: r =>
    match matchNumCore r with
    | some (t, rest) => some ('-' :: t, rest)
    | none => none
  | s => matchNumCore s

/-- Scanning loop of re.findall for num_pattern: at each position try the
pattern; on a match, keep the token and continue after it, else advance one
character.  The fuel argument is the length of the scanned list, which
bounds the number of steps since every step consumes at least one
character. -/
def findallNumAux : Nat → List Char → List (List Char)
  | 0, _ => []
  | _ + 1, [] => []
  | n + 1, c :: r =>
    match matchNumAt (c :: r) with
    | some (t, rest) => t :: findallNumAux n rest
    | none => findallNumAux n r

def findallNum (s : List Char) : List (List Char) := findallNumAux s.length s

/-- Amount normalization of parse_line: tok.replace(dot, empty) then
replace(comma, dot), then float(). -/
def normalizeAmount (tok : List Char) : Rat :=
  pyFloat ((tok.filter (fun c => c != '.')).map (fun c => if c == ',' then '.' else c))

/-!  Table cleaning pass, clean_df.  A cell of an extracted table is either a
string, a missing value, or (after coercion) a number. -/

inductive Cell
  | str : List Char → Cell
  | num : Rat → Cell
  | nan : Cell
  deriving DecidableEq, Repr

/-- Full match of the column-selection regex of clean_df:
  ^-?\d+[.,]?\d*$  .
The dollar anchor of the Python engine would also accept one trailing
final newline; the model requires the end of the string, and no judged
property feeds a cell with a trailing newline. -/
def matchesNumericPattern (s : List Char) : Bool :=
  let core := fun (u : List Char) =>
    let ds := u.takeWhile Char.isDigit
    let r := u.dropWhile Char.isDigit
    !ds.isEmpty &&
      (match r with
       | [] => true
       | c :: r2 => (c == '.' || c == ',') && r2.all Char.isDigit)
  match s with
  | '-' :: u => core u
  | u => core u

/-- Series.str.match with na equal False: missing and non-string cells never
match. -/
def cellMatches : Cell → Bool
  | Cell.str s => matchesNumericPattern s
  | _ => false

/-- The string transform of clean_df, in the order written in the source:
first replace comma by dot, then delete every dot. -/
def pyCleanTransform (s : List Char) : List Char :=
  (s.map (fun c => if c == ',' then '.' else c)).filter (fun c => c != '.')

/-- Unsigned part of the numeric parse used by pd.to_numeric: digits with an
optional dot-and-digits fractional part, returned as numerator and
denominator. -/
def toNumericParts (u : List Char) : Option (Nat × Nat) :=
  let ip := u.takeWhile Char.isDigit
  let r := u.dropWhile Char.isDigit
  match r with
  | [] => if ip.isEmpty then none else some (digitsToNat ip, 1)
  | '.' :: fr =>
    if fr.all Char.isDigit && !(ip.isEmpty && fr.isEmpty) then
      some (digitsToNat ip * 10 ^ fr.length + digitsToNat fr, 10 ^ fr.length)
    else none
  | _ => none

/-- pd.to_numeric with errors equal coerce, modelled on the plain decimal
fragment (optional sign, digits, optional dot and digits); strings outside
that fragment become a missing value here, although pandas itself would
also accept exponent forms, padded whitespace and infinities — none of
which the judged properties touch. -/
def toNumericOpt (s : List Char) : Option Rat :=
  match s with
  | '-' :: r => (toNumericParts r).map (fun p => mkRat (-(Int.ofNat p.1)) p.2)
  | '+' :: r => (toNumericParts r).map (fun p => mkRat (Int.ofNat p.1) p.2)
  | r => (toNumericParts r).map (fun p => mkRat (Int.ofNat p.1) p.2)

/-- Coercion of one cell of a selected column. -/
def coerceCell : Cell → Cell
  | Cell.str s =>
    match toNumericOpt (pyCleanTransform s) with
    | some q => Cell.num q
    | none => Cell.nan
  | Cell.num q => Cell.num q
  | Cell.nan => Cell.nan

/-- Column treatment of clean_df: a column is selected when ANY of its cells
matches the numeric pattern (the source applies .any() to the match mask),
and a selected column is coerced cell by cell. -/
def clean_col (col : List Cell) : List Cell :=
  if col.any cellMatches then col.map coerceCell else col

/-- Raw extracted table frame: header names and rows of cells. -/
structure Frame where
  header : List (List Char)
  rows : List (List Cell)
  deriving DecidableEq, Repr

def countNonNa (row : List Cell) : Nat :=
  (row.filter (fun c => match c with | Cell.nan => false | _ => true)).length

/-- clean_df: coerce the selected columns, then dropna with thresh equal 2
(keep the rows having at least two non-missing values). -/
def clean_df (f : Frame) : Frame :=
  let n := f.header.length
  let cols := (List.range n).map (fun j => f.rows.map (fun r => r.getD j Cell.nan))
  let cols2 := cols.map clean_col
  let rows2 := (List.range f.rows.length).map (fun i => cols2.map (fun c => c.getD i Cell.nan))
  ⟨f.header, rows2.filter (fun r => 2 ≤ countNonNa r)⟩

/-!  Line classifier and field extractor, parse_line. -/

/-- One extracted record, with the field names and order of the dicts built
by parse_line (Monto_UYU is always assigned a float at every return site of
the source, hence it is not optional; Monto_USD may be absent). -/
structure Record where
  Fecha : List Char
  Codigo : List Char
  Descripcion : List Char
  Cuotas : List Char
  Monto_UYU : Rat
  Monto_USD : Option Rat
  Tipo : List Char
  deriving DecidableEq, Repr

def mSaldoAnt : List Char := "SALDO DEL ESTADO DE CUENTA ANTERIOR".toList
def mPagos : List Char := "PAGOS".toList
def mSeguro : List Char := "SEGURO DE VIDA SOBRE SALDO".toList
def mSaldoCont : List Char := "SALDO CONTADO".toList

/-- Attempt of the date regex (two digits, whitespace, two digits,
whitespace, two digits) at the head of the list. -/
def dateAt (s : List Char) : Option (List Char × List Char × List Char) :=
  match s with
  | a :: b :: r1 =>
    if a.isDigit && b.isDigit then
      if (r1.takeWhile isPySpace).isEmpty then none
      else
        match r1.dropWhile isPySpace with
        | c :: d :: r2 =>
          if c.isDigit && d.isDigit then
            if (r2.takeWhile isPySpace).isEmpty then none
            else
              match r2.dropWhile isPySpace with
              | e :: f :: _ =>
                if e.isDigit && f.isDigit then some ([a, b], [c, d], [e, f]) else none
              | _ => none
          else none
        | _ => none
    else none
  | _ => none

/-- re.search for the date pattern: leftmost attempt that succeeds. -/
def dateSearch : List Char → Option (List Char × List Char × List Char)
  | [] => none
  | c :: r =>
    match dateAt (c :: r) with
    | some x => some x
    | none => dateSearch r

/-!
The transaction regex of parse_line:
  ^\s*(\d{2})\s+(\d{2})\s+(\d{2})\s+(?P<code>\d{4})?\s+(?P<desc>.+?)(?=\s{4,}NUM)
The pieces below reproduce its backtracking order: the whitespace runs are
greedy (longest split first), the optional code group prefers to match, the
description is lazy (shortest first), and the lookahead needs at least four
whitespace characters directly followed by an amount token.
-/

/-- Zero-width lookahead: at least 4 whitespace characters followed by an
amount token. -/
def lookaheadOk (s : List Char) : Bool :=
  4 ≤ (s.takeWhile isPySpace).length && (matchNumAt (s.dropWhile isPySpace)).isSome

/-- Lazy extension of the description: the accumulated description grows one
character at a time (never across a newline) until the lookahead holds at
the remaining characters; returns the description and the remaining list. -/
def descGo : List Char → List Char → Option (List Char × List Char)
  | acc, [] => if lookaheadOk [] then some (acc, []) else none
  | acc, c :: r =>
    if lookaheadOk (c :: r) then some (acc, c :: r)
    else if c == '\n' then none
    else descGo (acc ++ [c]) r

/-- Description matcher: at least one character, lazy, lookahead-bounded. -/
def descSearch : List Char → Option (List Char × List Char)
  | [] => none
  | c :: r => if c == '\n' then none else descGo [c] r

/-- Greedy split of a whitespace run: try consuming k characters of the run
sp (largest k first, at least one) and hand the rest of the run plus r to
the continuation f. -/
def tryFromSpaces (f : List Char → Option α) : Nat → List Char → List Char → Option α
  | 0, _, _ => none
  | Nat.succ j, sp, r =>
    match f (sp.drop (Nat.succ j) ++ r) with
    | some x => some x
    | none => tryFromSpaces f j sp r

/-- One-or-more whitespace then the lazy description. -/
def s2Desc (s : List Char) : Option (List Char × List Char) :=
  if (s.takeWhile isPySpace).isEmpty then none
  else tryFromSpaces descSearch (s.takeWhile isPySpace).length (s.takeWhile isPySpace)
    (s.dropWhile isPySpace)

/-- Branch of the optional code group where the group matches nothing. -/
def noCodeS2 (s : List Char) : Option (List Char × List Char × List Char) :=
  match s2Desc s with
  | some (desc, rest) => some ([], desc, rest)
  | none => none

/-- Optional four-digit code (preferring to match, as a greedy optional
group does) followed by whitespace and the description. -/
def codeS2Desc (s : List Char) : Option (List Char × List Char × List Char) :=
  match s with
  | a :: b :: c :: d :: r =>
    if a.isDigit && b.isDigit && c.isDigit && d.isDigit then
      match s2Desc r with
      | some (desc, rest) => some ([a, b, c, d], desc, rest)
      | none => noCodeS2 (a :: b :: c :: d :: r)
    else noCodeS2 (a :: b :: c :: d :: r)
  | s => noCodeS2 s

/-- One-or-more whitespace after the year, then the code and description
part. -/
def s1Part (s : List Char) : Option (List Char × List Char × List Char) :=
  if (s.takeWhile isPySpace).isEmpty then none
  else tryFromSpaces codeS2Desc (s.takeWhile isPySpace).length (s.takeWhile isPySpace)
    (s.dropWhile isPySpace)

/-- Result of the anchored date part of the transaction regex: the consumed
characters, the three captured groups, and the remaining characters. -/
structure DateSplit where
  pre : List Char
  day : List Char
  mon : List Char
  yr : List Char
  rest : List Char
  deriving DecidableEq, Repr

/-- Anchored match of caret, optional whitespace, then the three two-digit
date groups separated by whitespace runs (all deterministic: the runs are
maximal because shortening any of them lands a digit test on a whitespace
character). -/
def transDateHead (line : List Char) : Option DateSplit :=
  match line.dropWhile isPySpace with
  | a :: b :: r1 =>
    if a.isDigit && b.isDigit then
      if (r1.takeWhile isPySpace).isEmpty then none
      else
        match r1.dropWhile isPySpace with
        | c :: d :: r2 =>
          if c.isDigit && d.isDigit then
            if (r2.takeWhile isPySpace).isEmpty then none
            else
              match r2.dropWhile isPySpace with
              | e :: f :: r3 =>
                if e.isDigit && f.isDigit then
                  some ⟨line.takeWhile isPySpace ++ [a, b] ++ r1.takeWhile isPySpace ++
                          [c, d] ++ r2.takeWhile isPySpace ++ [e, f],
                        [a, b], [c, d], [e, f], r3⟩
                else none
              | _ => none
          else none
        | _ => none
    else none
  | _ => none

/-- Captured groups of the full transaction regex, with rest the characters
from the match end (the zero-width lookahead position) onward. -/
structure TransParts where
  day : List Char
  mon : List Char
  yr : List Char
  code : List Char
  desc : List Char
  rest : List Char
  deriving DecidableEq, Repr

def transMatch (line : List Char) : Option TransParts :=
  match transDateHead line with
  | none => none
  | some ds =>
    match s1Part ds.rest with
    | none => none
    | some (code, desc, rest) => some ⟨ds.day, ds.mon, ds.yr, code, desc, rest⟩

/-- Attempt of the installment regex digits-slash-digits at the head of the
list. -/
def cuotaAt (s : List Char) : Option (List Char) :=
  let ds := s.takeWhile Char.isDigit
  if ds.isEmpty then none
  else
    match s.dropWhile Char.isDigit with
    | '/' :: r2 =>
      let ds2 := r2.takeWhile Char.isDigit
      if ds2.isEmpty then none else some (ds ++ '/' :: ds2)
    | _ => none

/-- re.search for the installment marker: leftmost match. -/
def cuotaSearch : List Char → Option (List Char)
  | [] => none
  | c :: r =>
    match cuotaAt (c :: r) with
    | some x => some x
    | none => cuotaSearch r

/-- Attempt of optional whitespace, the installment literal, optional
whitespace at the head of the list; on success returns the characters after
the consumed region. -/
def tryCuotaAt (cu s : List Char) : Option (List Char) :=
  let r := s.dropWhile isPySpace
  if startsWithB cu r then some ((r.drop cu.length).dropWhile isPySpace) else none

/-- re.sub of the installment pattern by the empty string: scan left to
right, replacing every non-overlapping occurrence.  Fueled by the length of
the scanned list, which bounds the steps. -/
def subCuotasAux (cu : List Char) : Nat → List Char → List Char
  | 0, s => s
  | n + 1, s =>
    match s with
    | [] => []
    | c :: r =>
      match tryCuotaAt cu (c :: r) with
      | some rest => subCuotasAux cu n rest
      | none => c :: subCuotasAux cu n r

def subCuotas (cu s : List Char) : List Char := subCuotasAux cu s.length s

/-- Rule for the SALDO ANTERIOR marker: needs at least two amount tokens,
takes the last two (local then foreign). -/
def ruleSaldoAnterior (line : List Char) : Option Record :=
  if containsSub mSaldoAnt line then
    match (findallNum line).reverse with
    | usd :: uyu :: _ =>
      some ⟨[], [], "SALDO ANTERIOR".toList, [], normalizeAmount uyu,
            some (normalizeAmount usd), "Saldo".toList⟩
    | _ => none
  else none

/-- Rule for the PAGOS marker: needs a date somewhere in the line and at
least two amount tokens. -/
def rulePagos (line : List Char) : Option Record :=
  if containsSub mPagos line then
    match dateSearch line with
    | none => none
    | some (d1, d2, d3) =>
      match (findallNum line).reverse with
      | usd :: uyu :: _ =>
        some ⟨d1 ++ '/' :: d2 ++ '/' :: d3, [], "PAGOS".toList, [], normalizeAmount uyu,
              some (normalizeAmount usd), "Pago".toList⟩
      | _ => none
  else none

/-- Rule for the SEGURO DE VIDA marker: needs at least two amount tokens and
takes the FIRST two (local then foreign), unlike the other special rules. -/
def ruleSeguro (line : List Char) : Option Record :=
  if containsSub mSeguro line then
    match findallNum line with
    | uyu :: usd :: _ =>
      some ⟨[], [], "SEGURO DE VIDA".toList, [], normalizeAmount uyu,
            some (normalizeAmount usd), "Cargo".toList⟩
    | _ => none
  else none

/-- Rule for the SALDO CONTADO marker: needs at least two amount tokens,
takes the last two (local then foreign). -/
def ruleSaldoContado (line : List Char) : Option Record :=
  if containsSub mSaldoCont line then
    match (findallNum line).reverse with
    | usd :: uyu :: _ =>
      some ⟨[], [], "SALDO FINAL".toList, [], normalizeAmount uyu,
            some (normalizeAmount usd), "Saldo".toList⟩
    | _ => none
  else none

/-- Record assembled by the general transaction rule from the regex groups
and the reversed amount list: date from the three groups, installment
marker extracted from the stripped description and removed from it, local
amount from the last token, foreign amount from the second-to-last when
present. -/
def mkTransRecord (tp : TransParts) (uyu : List Char) (restAmts : List (List Char)) :
    Record :=
  let desc0 := pyStrip tp.desc
  let cu := cuotaSearch desc0
  let desc1 :=
    match cu with
    | some c => pyStrip (subCuotas c desc0)
    | none => desc0
  ⟨tp.day ++ '/' :: tp.mon ++ '/' :: tp.yr, tp.code, desc1,
   (match cu with | some c => c | none => []),
   normalizeAmount uyu,
   (match restAmts with | usd :: _ => some (normalizeAmount usd) | [] => none),
   "Transacción".toList⟩

/-- General transaction rule: the transaction regex, installment extraction
and removal, then the amount scan of the remaining characters (rejecting
the line when no amount token is found there). -/
def ruleTrans (line : List Char) : Option Record :=
  match transMatch line with
  | none => none
  | some tp =>
    match (findallNum (pyStrip tp.rest)).reverse with
    | [] => none
    | uyu :: restAmts => some (mkTransRecord tp uyu restAmts)

/-- Rules tried after the PAGOS block has failed to return. -/
def rulesAfterPagos (line : List Char) : Option Record :=
  match ruleSeguro line with
  | some r => some r
  | none =>
    match ruleSaldoContado line with
    | some r => some r
    | none => ruleTrans line

/-- parse_line: trailing-whitespace trim, the 20-character length guard, then
the marker rules in source order (each marker block falls through to the
next rule when its inner conditions fail, because the source has no else
branch returning None inside the blocks), and finally the transaction
regex. -/
def parse_line (l : List Char) : Option Record :=
  if (rstrip l).length < 20 then none
  else
    match ruleSaldoAnterior (rstrip l) with
    | some r => some r
    | none =>
      match rulePagos (rstrip l) with
      | some r => some r
      | none => rulesAfterPagos (rstrip l)

/-!  Text-to-records parser, parse_text_to_csv, and the fallback
orchestrator, pdf_to_csv.

The CSV blob built by parse_text_to_csv is a fixed-column serialization of
the record list (header row plus one row per record); the orchestrator
re-reads it only to count its data rows, and that count equals the length
of the record list.  The embedding therefore carries the record list itself
through the text stage and uses its length where the source uses
len(pd.read_csv(...)). -/

/-- Python str.split on the newline character. -/
def splitLines : List Char → List (List Char)
  | [] => [[]]
  | '\n' :: r => [] :: splitLines r
  | c :: r =>
    match splitLines r with
    | h :: t => (c :: h) :: t
    | [] => [[c]]

/-- The classified records of a text: non-blank lines in order, each through
parse_line, keeping the matches. -/
def recordsOf (t : List Char) : List Record :=
  ((splitLines t).filter (fun l => !(pyStrip l).isEmpty)).filterMap parse_line

/-- parse_text_to_csv: fails (None) when fewer than 3 records were
classified, else returns the assembled records. -/
def parse_text_to_csv (t : List Char) : Option (List Record) :=
  if (recordsOf t).length < 3 then none else some (recordsOf t)

/-- Outcome of the top-level conversion. -/
inductive ConvResult
  | csvTable : Frame → ConvResult
  | csvText : List Record → ConvResult
  | llm : ConvResult
  | failure : ConvResult
  deriving DecidableEq, Repr

/-- Stages of the fallback cascade, recorded in the order they are
entered. -/
inductive Stage
  | table
  | text
  | llm
  deriving DecidableEq, Repr

/-- Lines 40 to 48 of the source: if the text pass produced a CSV whose
re-read row count exceeds 3, return it; otherwise delegate to the external
service. -/
def textLlmPart (t : List Char) : ConvResult :=
  match parse_text_to_csv t with
  | some recs => if recs.length > 3 then ConvResult.csvText recs else ConvResult.llm
  | none => ConvResult.llm

/-- One page as delivered by the external PDF component: an optional table
grid (rows of optional cell strings) and optional layout text. -/
structure Page where
  table : Option (List (List (Option (List Char))))
  text : Option (List Char)

/-- Input of the top-level conversion: whether the file exists, its path,
and the pages the PDF component would deliver. -/
structure PdfInput where
  present : Bool
  path : List Char
  pages : List Page

def lowerAscii (c : Char) : Char :=
  if 'A' ≤ c ∧ c ≤ 'Z' then Char.ofNat (c.toNat + 32) else c

def endsWithList (suf s : List Char) : Bool := startsWithB suf.reverse s.reverse

/-- file_path.lower().endswith of the pdf extension. -/
def endsWithPdf (path : List Char) : Bool :=
  endsWithList (".pdf".toList) (path.map lowerAscii)

/-- DataFrame built from one extracted grid: accepted only when the grid has
a header row and at least one data row (len greater than 1). -/
def pageDf (t : List (List (Option (List Char)))) : Option Frame :=
  match t with
  | hdr :: rest =>
    if rest.length ≥ 1 then
      some ⟨hdr.map (fun c => c.getD []),
            rest.map (fun row => row.map (fun c =>
              match c with
              | some s => Cell.str s
              | none => Cell.nan))⟩
    else none
  | [] => none

/-- Table stage: per-page accepted tables concatenated in page order, then
cleaned; the result stands only when it keeps more than 5 rows.  The
pd.concat of the source aligns columns by header name with missing-value
fill when headers differ across pages; the model concatenates rows
positionally under the first header, which agrees with pandas whenever
the pages share one header (no judged property exercises this stage). -/
def tableStage (pages : List Page) : Option Frame :=
  match pages.filterMap (fun p => p.table.bind pageDf) with
  | [] => none
  | d :: ds =>
    let cleaned := clean_df ⟨d.header, (List.map Frame.rows (d :: ds)).flatten⟩
    if cleaned.rows.length > 5 then some cleaned else none

/-- Per-page contribution to the concatenated text.  The source line
      full_text += page.extract_text(layout=True) or "" + "\n"
parses as text or ("" + "\n"): a page with truthy text contributes the text
itself with no separator, a page with empty or absent text contributes a
single newline. -/
def pageChunk : Option (List Char) → List Char
  | some t => if t.isEmpty then ['\n'] else t
  | none => ['\n']

def buildFullText (ts : List (Option (List Char))) : List Char :=
  ts.foldl (fun acc p => acc ++ pageChunk p) []

/-- pdf_to_csv: input validation, then the cascade, paired with the list of
stages that were entered.  A validation failure raises in the source and is
caught by the top-level handler, which returns None: the failure outcome
with an empty stage trace. -/
def pdf_to_csv (inp : PdfInput) : ConvResult × List Stage :=
  if inp.present = false then (ConvResult.failure, [])
  else if endsWithPdf inp.path = false then (ConvResult.failure, [])
  else
    match tableStage inp.pages with
    | some f => (ConvResult.csvTable f, [Stage.table])
    | none =>
      match textLlmPart (buildFullText (inp.pages.map Page.text)) with
      | ConvResult.llm => (ConvResult.llm, [Stage.table, Stage.text, Stage.llm])
      | r => (r, [Stage.table, Stage.text])

/-!  Spec-side value of a locale amount token, for the normalization claim:
the value obtained by dropping the thousands separators from the integer
part and reading the comma as the decimal point. -/

/-- Builder of an arbitrary token of the amount pattern: optional minus, a
leading digit run, zero or more dot-prefixed three-digit groups (each group
a triple of digit characters), and a comma followed by the two fraction
digits. -/
def gsFlat (gs : List (Char × Char × Char)) : List Char :=
  (gs.map (fun g => ['.', g.1, g.2.1, g.2.2])).flatten

def gsDigits (gs : List (Char × Char × Char)) : List Char :=
  (gs.map (fun g => [g.1, g.2.1, g.2.2])).flatten

def mkLocaleToken (neg : Bool) (ds : List Char) (gs : List (Char × Char × Char))
    (f1 f2 : Char) : List Char :=
  (if neg then ['-'] else []) ++ ds ++ gsFlat gs ++ [',', f1, f2]

/-- Value of such a token according to the specification wording: remove the
thousands separators (concatenating the digit groups), read the comma as
the decimal point (the two fraction digits over 100), apply the sign. -/
def localeTokenValue (neg : Bool) (ds : List Char) (gs : List (Char × Char × Char))
    (f1 f2 : Char) : Rat :=
  let n := digitsToNat (ds ++ gsDigits gs) * 100 + digitsToNat [f1, f2]
  if neg then mkRat (-(Int.ofNat n)) 100 else mkRat (Int.ofNat n) 100

/-- Full (anchored both ends) match of the amount token pattern. -/
def isNumTokenFull (tok : List Char) : Prop := matchNumAt tok = some (tok, [])

theorem ruleSaldoContado_none_of_few {line : List Char}
    (h : (findallNum line).length ≤ 1) : ruleSaldoContado line = none := by
  unfold ruleSaldoContado
  split
  · rcases hrev : (findallNum line).reverse with _ | ⟨a, _ | ⟨b, t⟩⟩
    · rfl
    · rfl
    · exfalso
      have hlen := congrArg List.length hrev
      simp at hlen
      omega
  · rfl

/-!  Claim theorems. -/

/-- C1: the cleaning pass does not read a locale token the way the claim
states.  In a column selected for coercion (here selected because 5,00
matches the selection pattern), the cell 1.234,56 is coerced to the integer
123456 and the cell 5,00 to 500 — not to 1234.56 and 5.00 — because the
source first turns the comma into a dot and then deletes every dot,
destroying the decimal point.  The second conjunct records that 123456
differs from the value 1234.56 the claim expects. -/
theorem clean_df_locale_cell_eval :
    clean_col [Cell.str ("5,00".toList), Cell.str ("1.234,56".toList)] =
      [Cell.num 500, Cell.num 123456] ∧ (123456 : Rat) ≠ mkRat 123456 100 := by decide

/-- C2 counterexample: a column holding the non-matching non-empty value abc
next to the matching value 12,34 is NOT left uncoerced — the source selects
a column when ANY cell matches — so the column is coerced, turning abc into
a missing value (and 12,34 into 1234). -/
theorem clean_df_all_match_cex :
    cellMatches (Cell.str ("abc".toList)) = false ∧
    clean_col [Cell.str ("12,34".toList), Cell.str ("abc".toList)] =
      [Cell.num 1234, Cell.nan] := by decide

/-- C2 amended: a text column is left uncoerced exactly when none of its
values matches the plausible-numeric pattern; as soon as at least one value
matches, the whole column is coerced cell by cell. -/
theorem clean_col_selection :
    (∀ col : List Cell, (∀ c ∈ col, cellMatches c = false) → clean_col col = col) ∧
    (∀ col : List Cell, ∀ c ∈ col, cellMatches c = true →
      clean_col col = col.map coerceCell) := by
  constructor
  · intro col h
    have hany : col.any cellMatches = false := by
      rw [Bool.eq_false_iff]
      intro hx
      obtain ⟨c, hc, hm⟩ := List.any_eq_true.mp hx
      rw [h c hc] at hm
      exact Bool.false_ne_true hm
    simp [clean_col, hany]
  · intro col c hc hm
    have hany : col.any cellMatches = true := List.any_eq_true.mpr ⟨c, hc, hm⟩
    simp [clean_col, hany]

theorem clean_col_selection_witness :
    clean_col [Cell.str ("abc".toList)] = [Cell.str ("abc".toList)] ∧
    clean_col [Cell.str ("5,00".toList), Cell.str ("x".toList)] =
      [Cell.str ("5,00".toList), Cell.str ("x".toList)].map coerceCell :=
  ⟨clean_col_selection.1 _ (by decide),
   clean_col_selection.2 _ (Cell.str ("5,00".toList)) (by decide) (by decide)⟩

/-- C3 counterexample: a line of length at least 20 containing the literal
PAGOS with fewer than 2 amount tokens is NOT rejected by the classifier;
the PAGOS block falls through and the line is classified by the general
transaction rule. -/
theorem pagos_fallthrough_cex :
    (rstrip ("15 03 24  PAGOS VARIOS          1.500,00".toList)).length ≥ 20 ∧
    containsSub mPagos (rstrip ("15 03 24  PAGOS VARIOS          1.500,00".toList)) = true ∧
    (findallNum (rstrip ("15 03 24  PAGOS VARIOS          1.500,00".toList))).length < 2 ∧
    parse_line ("15 03 24  PAGOS VARIOS          1.500,00".toList) =
      some ⟨"15/03/24".toList, [], "PAGOS VARIOS".toList, [], 1500, none,
            "Transacción".toList⟩ := by decide

/-- C3 amended: when the inner conditions of the PAGOS block fail (no date
pattern, or fewer than 2 amount tokens), the block yields nothing but the
classifier proceeds: the verdict of the remaining rules (insurance, final
balance, general transaction) becomes the final classification, so such a
line may still match. -/
theorem pagos_fallthrough (l : List Char)
    (hlen : ¬ (rstrip l).length < 20)
    (hpag : containsSub mPagos (rstrip l) = true)
    (hant : containsSub mSaldoAnt (rstrip l) = false)
    (hfail : dateSearch (rstrip l) = none ∨ (findallNum (rstrip l)).length < 2) :
    parse_line l = rulesAfterPagos (rstrip l) := by
  have h1 : ruleSaldoAnterior (rstrip l) = none := by simp [ruleSaldoAnterior, hant]
  have h2 : rulePagos (rstrip l) = none := by
    rcases hfail with hd | hlt
    · simp [rulePagos, hpag, hd]
    · cases hds : dateSearch (rstrip l) with
      | none => simp [rulePagos, hpag, hds]
      | some d =>
        have hlt2 : (findallNum (rstrip l)).reverse.length < 2 := by
          rw [List.length_reverse]; exact hlt
        rcases hrev : (findallNum (rstrip l)).reverse with _ | ⟨a, _ | ⟨b, t⟩⟩
        · simp [rulePagos, hpag, hds, hrev]
        · simp [rulePagos, hpag, hds, hrev]
        · rw [hrev] at hlt2
          simp at hlt2
          omega
  unfold parse_line
  rw [if_neg hlen, h1, h2]

theorem pagos_fallthrough_witness :
    parse_line ("15 03 24  PAGOS VARIOS          1.500,00".toList) =
      rulesAfterPagos (rstrip ("15 03 24  PAGOS VARIOS          1.500,00".toList)) :=
  pagos_fallthrough _ (by decide) (by decide) (by decide) (Or.inr (by decide))

/-- C4: the documented transaction line extracts exactly the expected
fields; Transacción is the classification tag the source uses for kind
Transaction, and the absent foreign amount is none. -/
theorem netflix_line_extraction :
    parse_line ("15 03 24 1234    NETFLIX.COM          3/6        1.500,00".toList) =
      some ⟨"15/03/24".toList, "1234".toList, "NETFLIX.COM".toList, "3/6".toList,
            1500, none, "Transacción".toList⟩ := by decide

/-- C5 counterexample: a line of length at least 20 that contains SALDO
CONTADO and begins with a valid transaction-date prefix but carries only
one amount token is NOT classified as Balance: the SALDO CONTADO block
(which needs two tokens) falls through and the general transaction rule
emits a dated Transaction record whose description is SALDO CONTADO. -/
theorem saldo_contado_priority_cex :
    (rstrip ("15 03 24  SALDO CONTADO          1.500,00".toList)).length ≥ 20 ∧
    containsSub mSaldoCont (rstrip ("15 03 24  SALDO CONTADO          1.500,00".toList)) =
      true ∧
    (transDateHead (rstrip ("15 03 24  SALDO CONTADO          1.500,00".toList))).isSome =
      true ∧
    parse_line ("15 03 24  SALDO CONTADO          1.500,00".toList) =
      some ⟨"15/03/24".toList, [], "SALDO CONTADO".toList, [], 1500, none,
            "Transacción".toList⟩ := by decide

/-- C5 amended: a line of length at least 20 containing SALDO CONTADO and
none of the earlier literal markers (previous-balance, PAGOS, insurance)
is classified as Balance (Tipo Saldo) with description SALDO FINAL when it
carries at least two amount tokens — in particular the marker rule then
takes priority over a valid transaction-date prefix; with fewer than two
amount tokens the SALDO CONTADO rule yields nothing and the final
classification is exactly the general transaction rule verdict, which may
be a dated Transaction record (as at the counterexample) or no match. -/
theorem saldo_contado_priority :
    (∀ l : List Char, ¬ (rstrip l).length < 20 →
      containsSub mSaldoCont (rstrip l) = true →
      containsSub mSaldoAnt (rstrip l) = false →
      containsSub mPagos (rstrip l) = false →
      containsSub mSeguro (rstrip l) = false →
      (transDateHead (rstrip l)).isSome = true →
      2 ≤ (findallNum (rstrip l)).length →
      ∃ r, parse_line l = some r ∧ r.Tipo = "Saldo".toList ∧
        r.Descripcion = "SALDO FINAL".toList) ∧
    (∀ l : List Char, ¬ (rstrip l).length < 20 →
      containsSub mSaldoCont (rstrip l) = true →
      containsSub mSaldoAnt (rstrip l) = false →
      containsSub mPagos (rstrip l) = false →
      containsSub mSeguro (rstrip l) = false →
      (findallNum (rstrip l)).length < 2 →
      parse_line l = ruleTrans (rstrip l)) := by
  constructor
  · intro l hlen hsc hant hpag hseg hdate hamts
    have h2 : 2 ≤ (findallNum (rstrip l)).reverse.length := by
      rw [List.length_reverse]; exact hamts
    rcases hrev : (findallNum (rstrip l)).reverse with _ | ⟨a, _ | ⟨b, t⟩⟩
    · rw [hrev] at h2; simp at h2
    · rw [hrev] at h2; simp at h2
    · refine ⟨⟨[], [], "SALDO FINAL".toList, [], normalizeAmount b,
        some (normalizeAmount a), "Saldo".toList⟩, ?_, rfl, rfl⟩
      unfold parse_line
      rw [if_neg hlen]
      simp [ruleSaldoAnterior, hant, rulePagos, hpag, rulesAfterPagos, ruleSeguro, hseg,
            ruleSaldoContado, hsc, hrev]
  · intro l hlen hsc hant hpag hseg hfew
    have h1 : ruleSaldoAnterior (rstrip l) = none := by simp [ruleSaldoAnterior, hant]
    have h2 : rulePagos (rstrip l) = none := by simp [rulePagos, hpag]
    have h4 : ruleSeguro (rstrip l) = none := by simp [ruleSeguro, hseg]
    have h5 : ruleSaldoContado (rstrip l) = none :=
      ruleSaldoContado_none_of_few (by omega)
    unfold parse_line rulesAfterPagos
    rw [if_neg hlen, h1, h2, h4, h5]

theorem saldo_contado_priority_witness :
    (∃ r, parse_line ("15 03 24  SALDO CONTADO      1,00    2,00".toList) = some r ∧
      r.Tipo = "Saldo".toList ∧ r.Descripcion = "SALDO FINAL".toList) ∧
    parse_line ("15 03 24  SALDO CONTADO          1.500,00".toList) =
      ruleTrans (rstrip ("15 03 24  SALDO CONTADO          1.500,00".toList)) :=
  ⟨saldo_contado_priority.1 ("15 03 24  SALDO CONTADO      1,00    2,00".toList)
     (by decide) (by decide) (by decide) (by decide) (by decide) (by decide) (by decide),
   saldo_contado_priority.2 ("15 03 24  SALDO CONTADO          1.500,00".toList)
     (by decide) (by decide) (by decide) (by decide) (by decide) (by decide)⟩

/-- C6: a text classifying to exactly 3 records makes the text stage
insufficient and control passes to the external-model stage; exactly 4
records make the text stage succeed with its assembled records, the
external service never being consulted.  (With 3 records the internal
lower bound of parse_text_to_csv is already met, but the orchestrator
accepts the text result only above 3 re-read rows.) -/
theorem text_stage_threshold :
    (∀ t : List Char, (recordsOf t).length = 3 → textLlmPart t = ConvResult.llm) ∧
    (∀ t : List Char, (recordsOf t).length = 4 →
      textLlmPart t = ConvResult.csvText (recordsOf t)) := by
  constructor
  · intro t h
    simp [textLlmPart, parse_text_to_csv, h]
  · intro t h
    simp [textLlmPart, parse_text_to_csv, h]

theorem text_stage_threshold_witness :
    textLlmPart (("SALDO CONTADO      100,00    200,00\nSALDO CONTADO      100,00    200,00\nSALDO CONTADO      100,00    200,00").toList) = ConvResult.llm ∧
    textLlmPart (("SALDO CONTADO      100,00    200,00\nSALDO CONTADO      100,00    200,00\nSALDO CONTADO      100,00    200,00\nSALDO CONTADO      100,00    200,00").toList) =
      ConvResult.csvText (recordsOf (("SALDO CONTADO      100,00    200,00\nSALDO CONTADO      100,00    200,00\nSALDO CONTADO      100,00    200,00\nSALDO CONTADO      100,00    200,00").toList)) :=
  ⟨text_stage_threshold.1 _ (by decide), text_stage_threshold.2 _ (by decide)⟩

/-- C9: a missing file or a path whose lowercased form does not end in the
pdf extension makes the conversion fail immediately: the outcome is the
no-output failure signal and the stage trace is empty, so none of the
table, text or external-model stages is entered. -/
theorem input_validation_aborts (inp : PdfInput)
    (h : inp.present = false ∨ endsWithPdf inp.path = false) :
    pdf_to_csv inp = (ConvResult.failure, []) := by
  rcases h with h | h
  · simp [pdf_to_csv, h]
  · cases hp : inp.present with
    | false => simp [pdf_to_csv, hp]
    | true => simp [pdf_to_csv, hp, h]

theorem input_validation_aborts_witness :
    pdf_to_csv ⟨true, "statement.txt".toList, []⟩ = (ConvResult.failure, []) :=
  input_validation_aborts _ (Or.inr (by decide))

/-- C10: building the concatenated text appends a newline only for pages
whose extraction yields nothing (absent or empty text); two consecutive
pages that both yield text are joined with no separator at all, so a record
at a page boundary runs into the first line of the next page. -/
theorem page_text_concat (a b : List Char) (ha : a ≠ []) (hb : b ≠ []) :
    buildFullText [some a, some b] = a ++ b ∧
    buildFullText [some a, none, some b] = a ++ '\n' :: b ∧
    buildFullText [some a, some [], some b] = a ++ '\n' :: b ∧
    buildFullText [none] = ['\n'] ∧ buildFullText [some []] = ['\n'] := by
  have ha' : a.isEmpty = false := by
    cases a with
    | nil => exact absurd rfl ha
    | cons x xs => rfl
  have hb' : b.isEmpty = false := by
    cases b with
    | nil => exact absurd rfl hb
    | cons x xs => rfl
  refine ⟨?_, ?_, ?_, rfl, rfl⟩ <;>
    simp [buildFullText, pageChunk, ha, hb, List.append_assoc]

theorem page_text_concat_witness :
    buildFullText [some ['x'], some ['y']] = ['x', 'y'] :=
  (page_text_concat ['x'] ['y'] (by decide) (by decide)).1

/-!  Helper lemmas for the normalization claim. -/

theorem digitsToNat_go (b : List Char) :
    ∀ n : Nat, b.foldl (fun m c => 10 * m + (c.toNat - 48)) n =
      n * 10 ^ b.length + digitsToNat b := by
  induction b with
  | nil => intro n; simp [digitsToNat]
  | cons c r ih =>
    intro n
    simp only [List.foldl_cons, List.length_cons, digitsToNat]
    rw [ih (10 * n + (c.toNat - 48)), ih (10 * 0 + (c.toNat - 48))]
    ring

theorem digitsToNat_append (a b : List Char) :
    digitsToNat (a ++ b) = digitsToNat a * 10 ^ b.length + digitsToNat b := by
  unfold digitsToNat
  rw [List.foldl_append, digitsToNat_go]
  rfl

theorem takeWhile_append_all {p : Char → Bool} (l r : List Char)
    (h : ∀ c ∈ l, p c = true) : (l ++ r).takeWhile p = l ++ r.takeWhile p := by
  induction l with
  | nil => simp
  | cons c t ih =>
    simp [List.takeWhile_cons, h c (by simp), ih (fun x hx => h x (by simp [hx]))]

theorem dropWhile_append_all {p : Char → Bool} (l r : List Char)
    (h : ∀ c ∈ l, p c = true) : (l ++ r).dropWhile p = r.dropWhile p := by
  induction l with
  | nil => simp
  | cons c t ih =>
    simp only [List.cons_append, List.dropWhile_cons, h c (by simp)]
    exact ih (fun x hx => h x (by simp [hx]))

theorem mapIdOn {f : Char → Char} (l : List Char) (h : ∀ c ∈ l, f c = c) :
    l.map f = l := by
  induction l with
  | nil => rfl
  | cons c t ih =>
    simp only [List.map_cons, h c (by simp)]
    rw [ih (fun x hx => h x (by simp [hx]))]

theorem filterAllTrue {p : Char → Bool} (l : List Char) (h : ∀ c ∈ l, p c = true) :
    l.filter p = l := by
  induction l with
  | nil => rfl
  | cons c t ih =>
    simp only [List.filter_cons, h c (by simp)]
    simp only [if_true]
    rw [ih (fun x hx => h x (by simp [hx]))]

theorem digit_bne_dot {c : Char} (h : c.isDigit = true) : (c != '.') = true := by
  rw [bne_iff_ne]
  intro he
  subst he
  exact absurd h (by decide)

theorem digit_map_comma {c : Char} (h : c.isDigit = true) :
    (if c == ',' then '.' else c) = c := by
  have hne : (c == ',') = false := by
    rw [beq_eq_false_iff_ne]
    intro he
    subst he
    exact absurd h (by decide)
  rw [hne]
  rfl

theorem matchNumAt_eq_core {c : Char} (r : List Char) (h : c ≠ '-') :
    matchNumAt (c :: r) = matchNumCore (c :: r) := by
  unfold matchNumAt
  split
  · rename_i heq
    exact absurd (List.head_eq_of_cons_eq heq) h
  · rfl

theorem pyFloat_eq_pos {c : Char} (r : List Char) (h : c ≠ '-') :
    pyFloat (c :: r) = mkRat (Int.ofNat (decParts (c :: r)).1) (decParts (c :: r)).2 := by
  unfold pyFloat
  split
  · rename_i heq
    exact absurd (List.head_eq_of_cons_eq heq) h
  · rfl

theorem digit_ne_dash {c : Char} (h : c.isDigit = true) : c ≠ '-' := by
  intro he
  subst he
  exact absurd h (by decide)

theorem gsDigits_digits (gs : List (Char × Char × Char))
    (hg : ∀ g ∈ gs, g.1.isDigit = true ∧ g.2.1.isDigit = true ∧ g.2.2.isDigit = true) :
    ∀ c ∈ gsDigits gs, c.isDigit = true := by
  intro c hc
  simp only [gsDigits, List.mem_flatten, List.mem_map] at hc
  obtain ⟨l, ⟨g, hgm, rfl⟩, hcl⟩ := hc
  obtain ⟨h1, h2, h3⟩ := hg g hgm
  simp only [List.mem_cons, List.mem_singleton] at hcl
  rcases hcl with rfl | rfl | rfl | h
  · exact h1
  · exact h2
  · exact h3
  · simp at h

theorem filter_gsFlat :
    ∀ gs : List (Char × Char × Char),
      (∀ g ∈ gs, g.1.isDigit = true ∧ g.2.1.isDigit = true ∧ g.2.2.isDigit = true) →
      (gsFlat gs).filter (fun c => c != '.') = gsDigits gs := by
  intro gs
  induction gs with
  | nil => intro _; rfl
  | cons g t ih =>
    intro hg
    obtain ⟨a, b, c⟩ := g
    obtain ⟨ha, hb, hc⟩ := hg (a, b, c) (by simp)
    have h1 : gsFlat ((a, b, c) :: t) = '.' :: a :: b :: c :: gsFlat t := by simp [gsFlat]
    have h2 : gsDigits ((a, b, c) :: t) = a :: b :: c :: gsDigits t := by simp [gsDigits]
    rw [h1, h2]
    simp [List.filter_cons, digit_bne_dot ha, digit_bne_dot hb, digit_bne_dot hc,
          ih (fun x hx => hg x (List.mem_cons_of_mem _ hx))]

theorem tryGroups_flat (f1 f2 : Char) (hf1 : f1.isDigit = true) (hf2 : f2.isDigit = true) :
    ∀ gs : List (Char × Char × Char),
      (∀ g ∈ gs, g.1.isDigit = true ∧ g.2.1.isDigit = true ∧ g.2.2.isDigit = true) →
      ∀ acc : List Char,
        tryGroups acc (gsFlat gs ++ [',', f1, f2]) =
          some (acc ++ gsFlat gs ++ [',', f1, f2], []) := by
  intro gs
  induction gs with
  | nil =>
    intro _ acc
    have h1 : tryGroups acc (gsFlat [] ++ [',', f1, f2]) = tryComma acc [',', f1, f2] := rfl
    have h2 : tryComma acc [',', f1, f2] =
        if f1.isDigit && f2.isDigit then some (acc ++ [',', f1, f2], ([] : List Char))
        else none := rfl
    rw [h1, h2]
    simp [hf1, hf2, gsFlat]
  | cons g t ih =>
    intro hg acc
    obtain ⟨a, b, c⟩ := g
    obtain ⟨ha, hb, hc⟩ := hg (a, b, c) (by simp)
    have hfl : gsFlat ((a, b, c) :: t) ++ [',', f1, f2] =
        '.' :: a :: b :: c :: (gsFlat t ++ [',', f1, f2]) := by
      simp [gsFlat]
    rw [hfl]
    have h1 : tryGroups acc ('.' :: a :: b :: c :: (gsFlat t ++ [',', f1, f2])) =
        if a.isDigit && b.isDigit && c.isDigit then
          match tryGroups (acc ++ ['.', a, b, c]) (gsFlat t ++ [',', f1, f2]) with
          | some x => some x
          | none => tryComma acc ('.' :: a :: b :: c :: (gsFlat t ++ [',', f1, f2]))
        else tryComma acc ('.' :: a :: b :: c :: (gsFlat t ++ [',', f1, f2])) := rfl
    rw [h1, ih (fun x hx => hg x (List.mem_cons_of_mem _ hx)) (acc ++ ['.', a, b, c])]
    simp [ha, hb, hc, gsFlat, List.append_assoc]

theorem matchNumCore_flat (ds : List Char) (gs : List (Char × Char × Char)) (f1 f2 : Char)
    (hds : ds ≠ []) (hdd : ∀ c ∈ ds, c.isDigit = true)
    (hg : ∀ g ∈ gs, g.1.isDigit = true ∧ g.2.1.isDigit = true ∧ g.2.2.isDigit = true)
    (hf1 : f1.isDigit = true) (hf2 : f2.isDigit = true) :
    matchNumCore (ds ++ (gsFlat gs ++ [',', f1, f2])) =
      some (ds ++ (gsFlat gs ++ [',', f1, f2]), []) := by
  have htw : (gsFlat gs ++ [',', f1, f2]).takeWhile Char.isDigit = [] := by
    cases gs with
    | nil => simp [gsFlat, List.takeWhile_cons]
    | cons g t =>
      obtain ⟨a, b, c⟩ := g
      have : gsFlat ((a, b, c) :: t) ++ [',', f1, f2] =
          '.' :: (a :: b :: c :: gsFlat t ++ [',', f1, f2]) := by simp [gsFlat]
      rw [this]
      simp [List.takeWhile_cons]
  have hdw : (gsFlat gs ++ [',', f1, f2]).dropWhile Char.isDigit =
      gsFlat gs ++ [',', f1, f2] := by
    cases gs with
    | nil => simp [gsFlat, List.dropWhile_cons]
    | cons g t =>
      obtain ⟨a, b, c⟩ := g
      have : gsFlat ((a, b, c) :: t) ++ [',', f1, f2] =
          '.' :: (a :: b :: c :: gsFlat t ++ [',', f1, f2]) := by simp [gsFlat]
      rw [this]
      simp [List.dropWhile_cons]
  have hemp : ds.isEmpty = false := by
    cases ds with
    | nil => exact absurd rfl hds
    | cons x xs => rfl
  unfold matchNumCore
  rw [takeWhile_append_all _ _ hdd, htw, dropWhile_append_all _ _ hdd, hdw]
  simp only [List.append_nil]
  rw [List.isEmpty_eq_false_iff_exists_mem] at hemp
  simp only [List.isEmpty_eq_true]
  rw [if_neg (by rintro rfl; obtain ⟨x, hx⟩ := hemp; simp at hx)]
  rw [tryGroups_flat f1 f2 hf1 hf2 gs hg []]
  simp

theorem transform_mkLocale (neg : Bool) (ds : List Char) (gs : List (Char × Char × Char))
    (f1 f2 : Char) (hdd : ∀ c ∈ ds, c.isDigit = true)
    (hg : ∀ g ∈ gs, g.1.isDigit = true ∧ g.2.1.isDigit = true ∧ g.2.2.isDigit = true)
    (hf1 : f1.isDigit = true) (hf2 : f2.isDigit = true) :
    ((mkLocaleToken neg ds gs f1 f2).filter (fun c => c != '.')).map
        (fun c => if c == ',' then '.' else c) =
      (if neg then ['-'] else []) ++ (ds ++ (gsDigits gs ++ ['.', f1, f2])) := by
  have hsign : ((if neg then ['-'] else []) : List Char).filter (fun c => c != '.') =
      (if neg then ['-'] else []) := by cases neg <;> rfl
  have hsignm : ((if neg then ['-'] else []) : List Char).map
      (fun c => if c == ',' then '.' else c) = (if neg then ['-'] else []) := by
    cases neg <;> rfl
  have hfds : ds.filter (fun c => c != '.') = ds :=
    filterAllTrue _ (fun c hc => digit_bne_dot (hdd c hc))
  have hmds : ds.map (fun c => if c == ',' then '.' else c) = ds :=
    mapIdOn _ (fun c hc => digit_map_comma (hdd c hc))
  have hmgs : (gsDigits gs).map (fun c => if c == ',' then '.' else c) = gsDigits gs :=
    mapIdOn _ (fun c hc => digit_map_comma (gsDigits_digits gs hg c hc))
  have hftail : ([',', f1, f2] : List Char).filter (fun c => c != '.') = [',', f1, f2] := by
    simp [List.filter_cons, digit_bne_dot hf1, digit_bne_dot hf2]
  have hmtail : ([',', f1, f2] : List Char).map (fun c => if c == ',' then '.' else c) =
      ['.', f1, f2] := by
    simp only [List.map_cons, List.map_nil, digit_map_comma hf1, digit_map_comma hf2]
    rfl
  unfold mkLocaleToken
  rw [List.append_assoc, List.append_assoc, List.filter_append, List.filter_append,
      List.filter_append, hsign, hfds, filter_gsFlat gs hg, hftail,
      List.map_append, List.map_append, List.map_append, hsignm, hmds, hmgs, hmtail]

theorem decParts_flat (dsAll : List Char) (f1 f2 : Char)
    (hdd : ∀ c ∈ dsAll, c.isDigit = true) :
    decParts (dsAll ++ ['.', f1, f2]) =
      (digitsToNat dsAll * 100 + digitsToNat [f1, f2], 100) := by
  have hpred : ∀ c ∈ dsAll, (c != '.') = true := fun c hc => digit_bne_dot (hdd c hc)
  unfold decParts
  rw [takeWhile_append_all _ _ hpred, dropWhile_append_all _ _ hpred]
  simp [List.takeWhile_cons, List.dropWhile_cons]

/-- C8: for every token of the locale amount pattern (built from a sign
flag, the leading digit run, the dot-separated three-digit groups and the
two fraction digits), the normalization used by parse_line, which removes
every dot and then turns the comma into a dot before parsing, yields the
value prescribed by the specification: the digits with thousands
separators removed, the comma read as the decimal point, and the sign
applied; in particular 1.234,56 normalizes to 1234.56 (= 123456/100),
-12,00 to -12 and 5,00 to 5.  The first conjunct records that the built
token is a full match of the amount pattern. -/
theorem normalize_locale_tokens (neg : Bool) (ds : List Char)
    (gs : List (Char × Char × Char)) (f1 f2 : Char)
    (hds : ds ≠ []) (hdd : ∀ c ∈ ds, c.isDigit = true)
    (hg : ∀ g ∈ gs, g.1.isDigit = true ∧ g.2.1.isDigit = true ∧ g.2.2.isDigit = true)
    (hf1 : f1.isDigit = true) (hf2 : f2.isDigit = true) :
    isNumTokenFull (mkLocaleToken neg ds gs f1 f2) ∧
    normalizeAmount (mkLocaleToken neg ds gs f1 f2) = localeTokenValue neg ds gs f1 f2 ∧
    normalizeAmount ("1.234,56".toList) = mkRat 123456 100 ∧
    normalizeAmount ("-12,00".toList) = -12 ∧
    normalizeAmount ("5,00".toList) = 5 := by
  refine ⟨?_, ?_, by decide, by decide, by decide⟩
  · unfold isNumTokenFull
    cases neg with
    | false =>
      have hmk : mkLocaleToken false ds gs f1 f2 = ds ++ (gsFlat gs ++ [',', f1, f2]) := by
        simp [mkLocaleToken]
      rw [hmk]
      rcases ds with _ | ⟨d, ds'⟩
      · exact absurd rfl hds
      · rw [List.cons_append, matchNumAt_eq_core _ (digit_ne_dash (hdd d (by simp)))]
        have h2 := matchNumCore_flat (d :: ds') gs f1 f2 (by simp) hdd hg hf1 hf2
        rw [List.cons_append] at h2
        exact h2
    | true =>
      have hmk : mkLocaleToken true ds gs f1 f2 =
          '-' :: (ds ++ (gsFlat gs ++ [',', f1, f2])) := by
        simp [mkLocaleToken]
      rw [hmk]
      have h1 : matchNumAt ('-' :: (ds ++ (gsFlat gs ++ [',', f1, f2]))) =
          match matchNumCore (ds ++ (gsFlat gs ++ [',', f1, f2])) with
          | some (t, rest) => some ('-' :: t, rest)
          | none => none := rfl
      rw [h1, matchNumCore_flat ds gs f1 f2 hds hdd hg hf1 hf2]
  · unfold normalizeAmount
    rw [transform_mkLocale neg ds gs f1 f2 hdd hg hf1 hf2]
    have hddAll : ∀ c ∈ ds ++ gsDigits gs, c.isDigit = true := by
      intro c hc
      rcases List.mem_append.mp hc with h | h
      · exact hdd c h
      · exact gsDigits_digits gs hg c h
    cases neg with
    | false =>
      have hnil : ((if false = true then ['-'] else []) : List Char) ++
          (ds ++ (gsDigits gs ++ ['.', f1, f2])) = ds ++ (gsDigits gs ++ ['.', f1, f2]) := by
        simp
      rw [hnil]
      rcases ds with _ | ⟨d, ds'⟩
      · exact absurd rfl hds
      · rw [List.cons_append, pyFloat_eq_pos _ (digit_ne_dash (hdd d (by simp)))]
        have hdp := decParts_flat (d :: ds' ++ gsDigits gs) f1 f2
          (by simp only [List.cons_append] at hddAll ⊢; exact hddAll)
        rw [List.cons_append, List.cons_append, List.append_assoc] at hdp
        rw [hdp]
        simp [localeTokenValue]
    | true =>
      have hhd : ((if true = true then ['-'] else []) : List Char) ++
          (ds ++ (gsDigits gs ++ ['.', f1, f2])) =
          '-' :: (ds ++ gsDigits gs ++ ['.', f1, f2]) := by
        simp [List.append_assoc]
      rw [hhd]
      have h1 : pyFloat ('-' :: (ds ++ gsDigits gs ++ ['.', f1, f2])) =
          mkRat (-(Int.ofNat (decParts (ds ++ gsDigits gs ++ ['.', f1, f2])).1))
            (decParts (ds ++ gsDigits gs ++ ['.', f1, f2])).2 := rfl
      rw [h1, decParts_flat (ds ++ gsDigits gs) f1 f2 hddAll]
      simp [localeTokenValue]

theorem normalize_locale_tokens_witness :
    isNumTokenFull (mkLocaleToken false ['1'] [('2', '3', '4')] '5' '6') ∧
    normalizeAmount (mkLocaleToken false ['1'] [('2', '3', '4')] '5' '6') =
      localeTokenValue false ['1'] [('2', '3', '4')] '5' '6' ∧
    normalizeAmount ("1.234,56".toList) = mkRat 123456 100 ∧
    normalizeAmount ("-12,00".toList) = -12 ∧
    normalizeAmount ("5,00".toList) = 5 :=
  normalize_locale_tokens false ['1'] [('2', '3', '4')] '5' '6' (by decide) (by decide)
    (by decide) (by decide) (by decide)

/-!  Helper lemmas for the record invariants claim. -/

theorem ruleSaldoAnterior_tipo {line : List Char} {r : Record}
    (h : ruleSaldoAnterior line = some r) : r.Tipo = "Saldo".toList := by
  unfold ruleSaldoAnterior at h
  split at h
  · split at h
    · cases h; rfl
    · exact Option.noConfusion h
  · exact Option.noConfusion h

theorem rulePagos_tipo {line : List Char} {r : Record}
    (h : rulePagos line = some r) : r.Tipo = "Pago".toList := by
  unfold rulePagos at h
  split at h
  · split at h
    · exact Option.noConfusion h
    · split at h
      · cases h; rfl
      · exact Option.noConfusion h
  · exact Option.noConfusion h

theorem ruleSeguro_tipo {line : List Char} {r : Record}
    (h : ruleSeguro line = some r) : r.Tipo = "Cargo".toList := by
  unfold ruleSeguro at h
  split at h
  · split at h
    · cases h; rfl
    · exact Option.noConfusion h
  · exact Option.noConfusion h

theorem ruleSaldoContado_tipo {line : List Char} {r : Record}
    (h : ruleSaldoContado line = some r) : r.Tipo = "Saldo".toList := by
  unfold ruleSaldoContado at h
  split at h
  · split at h
    · cases h; rfl
    · exact Option.noConfusion h
  · exact Option.noConfusion h

theorem ruleTrans_tipo {line : List Char} {r : Record}
    (h : ruleTrans line = some r) : r.Tipo = "Transacción".toList := by
  unfold ruleTrans at h
  split at h
  · exact Option.noConfusion h
  · split at h
    · exact Option.noConfusion h
    · cases h; rfl

theorem findall_all_none :
    ∀ (n : Nat) (s : List Char), (∀ p, matchNumAt (List.drop p s) = none) →
      findallNumAux n s = [] := by
  intro n
  induction n with
  | zero => intro s _; rfl
  | succ m ih =>
    intro s hnone
    cases s with
    | nil => rfl
    | cons c r =>
      have h0 : matchNumAt (c :: r) = none := by
        have := hnone 0
        simpa using this
      simp only [findallNumAux, h0]
      exact ih r (fun p => by simpa using hnone (p + 1))

theorem findall_nil_suffix :
    ∀ (n : Nat) (s : List Char), s.length ≤ n → findallNumAux n s = [] →
      ∀ p, matchNumAt (List.drop p s) = none := by
  intro n
  induction n with
  | zero =>
    intro s hs _ p
    have hnil : s = [] := List.length_eq_zero.mp (Nat.le_zero.mp hs)
    subst hnil
    rw [List.drop_nil]
    rfl
  | succ m ih =>
    intro s hs hf p
    cases s with
    | nil =>
      rw [List.drop_nil]
      rfl
    | cons c r =>
      rcases hm : matchNumAt (c :: r) with _ | pr
      · have hf2 : findallNumAux m r = [] := by
          simp only [findallNumAux, hm] at hf
          exact hf
        cases p with
        | zero => simpa using hm
        | succ q =>
          rw [List.drop_succ_cons]
          exact ih r (by simpa using Nat.lt_succ_iff.mp (Nat.lt_of_lt_of_le (by simp) hs)) hf2 q
      · simp only [findallNumAux, hm] at hf
        exact absurd hf (List.cons_ne_nil _ _)

theorem findallNum_nil_suffix {s : List Char} (h : findallNum s = []) :
    ∀ p, matchNumAt (List.drop p s) = none :=
  findall_nil_suffix s.length s le_rfl h

theorem tryComma_spec {acc s t r : List Char} (h : tryComma acc s = some (t, r)) :
    ∃ u, t = acc ++ u ∧ s = u ++ r ∧ ',' ∈ u := by
  unfold tryComma at h
  split at h
  · split at h
    · cases h
      exact ⟨[',', _, _], rfl, rfl, by simp⟩
    · exact Option.noConfusion h
  · exact Option.noConfusion h

theorem tryGroups_spec :
    ∀ (n : Nat) (s : List Char), s.length ≤ n → ∀ acc t r,
      tryGroups acc s = some (t, r) → ∃ u, t = acc ++ u ∧ s = u ++ r ∧ ',' ∈ u := by
  intro n
  induction n with
  | zero =>
    intro s hs acc t r h
    have hnil : s = [] := List.length_eq_zero.mp (Nat.le_zero.mp hs)
    subst hnil
    have hz : tryGroups acc ([] : List Char) = none := rfl
    rw [hz] at h
    exact Option.noConfusion h
  | succ m ih =>
    intro s hs acc t r h
    unfold tryGroups at h
    split at h
    · rename_i a b c r'
      split at h
      · rcases hrec : tryGroups (acc ++ ['.', a, b, c]) r' with _ | ⟨t', r''⟩
        · rw [hrec] at h
          dsimp only at h
          have htc : tryComma acc ('.' :: a :: b :: c :: r') = none := rfl
          rw [htc] at h
          exact Option.noConfusion h
        · rw [hrec] at h
          dsimp only at h
          cases h
          obtain ⟨u', h1, h2, h3⟩ := ih r' (by simp at hs; omega) _ _ _ hrec
          refine ⟨'.' :: a :: b :: c :: u', ?_, ?_, by simp [h3]⟩
          · rw [h1]
            simp [List.append_assoc]
          · rw [h2]
            simp
      · have htc : tryComma acc ('.' :: a :: b :: c :: r') = none := rfl
        rw [htc] at h
        exact Option.noConfusion h
    · exact tryComma_spec h

theorem matchNumCore_spec {s t r : List Char} (h : matchNumCore s = some (t, r)) :
    s = t ++ r ∧ ',' ∈ t := by
  simp only [matchNumCore] at h
  split at h
  · exact Option.noConfusion h
  · split at h
    · rename_i t' rest hg
      cases h
      obtain ⟨u, hu1, hu2, hu3⟩ :=
        tryGroups_spec (s.dropWhile Char.isDigit).length _ le_rfl _ _ _ hg
      rw [List.nil_append] at hu1
      subst hu1
      constructor
      · conv_lhs => rw [← List.takeWhile_append_dropWhile (p := Char.isDigit) (l := s)]
        rw [hu2, List.append_assoc]
      · simp [hu3]
    · exact Option.noConfusion h

theorem matchNumAt_spec {s t r : List Char} (h : matchNumAt s = some (t, r)) :
    s = t ++ r ∧ ',' ∈ t := by
  unfold matchNumAt at h
  split at h
  · split at h
    · rename_i t' rest hc
      cases h
      obtain ⟨h1, h2⟩ := matchNumCore_spec hc
      exact ⟨by rw [h1]; rfl, by simp [h2]⟩
    · exact Option.noConfusion h
  · exact matchNumCore_spec h

theorem findall_prefix_bound :
    ∀ (n : Nat) (pre rest : List Char), (pre ++ rest).length ≤ n →
      (∀ c ∈ pre, c ≠ ',') → (∀ p, matchNumAt (List.drop p rest) = none) →
      (findallNumAux n (pre ++ rest)).length ≤ 1 := by
  intro n
  induction n with
  | zero => intro pre rest _ _ _; simp [findallNumAux]
  | succ m ih =>
    intro pre rest hlen hpre hrest
    cases pre with
    | nil =>
      rw [List.nil_append, findall_all_none (m + 1) rest hrest]
      simp
    | cons c pre' =>
      rw [List.cons_append]
      rcases hm : matchNumAt (c :: (pre' ++ rest)) with _ | ⟨t, rs⟩
      · simp only [findallNumAux, hm]
        exact ih pre' rest (by simp at hlen ⊢; omega)
          (fun x hx => hpre x (by simp [hx])) hrest
      · simp only [findallNumAux, hm, List.length_cons]
        obtain ⟨heq, hcomma⟩ := matchNumAt_spec hm
        have hlt : (c :: pre').length < t.length := by
          by_contra hle
          push_neg at hle
          have htake : t = (c :: pre').take t.length ++
              rest.take (t.length - (c :: pre').length) := by
            conv_lhs => rw [show t = List.take t.length (t ++ rs) from by simp]
            rw [← heq, ← List.cons_append, List.take_append_eq_append_take]
          have hz : t.length - (c :: pre').length = 0 := by omega
          rw [hz, List.take_zero, List.append_nil] at htake
          have hmem : ',' ∈ c :: pre' := List.take_subset _ _ (htake ▸ hcomma)
          exact hpre ',' hmem rfl
        have hrs : rs = List.drop (t.length - (c :: pre').length) rest := by
          have h2 : rs = List.drop t.length ((c :: pre') ++ rest) := by
            conv_lhs => rw [show rs = List.drop t.length (t ++ rs) from by simp]
            rw [← heq, ← List.cons_append]
          rw [h2, List.drop_append_eq_append_drop]
          have hd : (c :: pre').drop t.length = [] :=
            List.drop_eq_nil_of_le (by omega)
          rw [hd, List.nil_append]
        have hnone2 : ∀ p, matchNumAt (List.drop p rs) = none := by
          intro p
          rw [hrs, List.drop_drop]
          exact hrest _
        rw [findall_all_none m rs hnone2]
        simp

theorem dropWhile_eq_drop (p : Char → Bool) :
    ∀ l : List Char, l.dropWhile p = l.drop (l.takeWhile p).length := by
  intro l
  induction l with
  | nil => rfl
  | cons c r ih =>
    by_cases hc : p c = true
    · simp [List.dropWhile_cons, List.takeWhile_cons, hc, ih]
    · have hc2 : p c = false := Bool.not_eq_true _ ▸ (by simpa using hc)
      simp [List.dropWhile_cons, List.takeWhile_cons, hc2]

theorem descGo_spec :
    ∀ (r acc d rest : List Char), descGo acc r = some (d, rest) →
      rest <:+ r ∧ lookaheadOk rest = true := by
  intro r
  induction r with
  | nil =>
    intro acc d rest h
    unfold descGo at h
    split at h
    · rename_i hcond
      cases h
      exact ⟨List.suffix_refl _, hcond⟩
    · exact Option.noConfusion h
  | cons c r' ih =>
    intro acc d rest h
    unfold descGo at h
    split at h
    · rename_i hcond
      cases h
      exact ⟨List.suffix_refl _, hcond⟩
    · split at h
      · exact Option.noConfusion h
      · obtain ⟨h1, h2⟩ := ih _ _ _ h
        exact ⟨h1.trans (List.suffix_cons c r'), h2⟩

theorem descSearch_spec {s d rest : List Char} (h : descSearch s = some (d, rest)) :
    rest <:+ s ∧ lookaheadOk rest = true := by
  cases s with
  | nil => exact Option.noConfusion h
  | cons c r =>
    unfold descSearch at h
    dsimp only at h
    by_cases hc : (c == '\n') = true
    · rw [if_pos hc] at h
      exact Option.noConfusion h
    · rw [if_neg hc] at h
      obtain ⟨h1, h2⟩ := descGo_spec r [c] d rest h
      exact ⟨h1.trans (List.suffix_cons c r), h2⟩

theorem tryFromSpaces_spec {α : Type} (f : List Char → Option α) (g : α → List Char)
    (hf : ∀ u x, f u = some x → g x <:+ u ∧ lookaheadOk (g x) = true) :
    ∀ (k : Nat) (sp r : List Char) (x : α), tryFromSpaces f k sp r = some x →
      g x <:+ sp ++ r ∧ lookaheadOk (g x) = true := by
  intro k
  induction k with
  | zero => intro sp r x h; exact Option.noConfusion h
  | succ j ih =>
    intro sp r x h
    unfold tryFromSpaces at h
    split at h
    · rename_i x' hx'
      cases h
      obtain ⟨h1, h2⟩ := hf _ _ hx'
      refine ⟨h1.trans ?_, h2⟩
      exact ⟨sp.take (j + 1), by rw [← List.append_assoc, List.take_append_drop]⟩
    · exact ih sp r x h

theorem s2Desc_spec {s d rest : List Char} (h : s2Desc s = some (d, rest)) :
    rest <:+ s ∧ lookaheadOk rest = true := by
  unfold s2Desc at h
  split at h
  · exact Option.noConfusion h
  · have hmain := tryFromSpaces_spec descSearch Prod.snd
      (fun u x hx => by rcases x with ⟨d', r'⟩; exact descSearch_spec hx)
      (s.takeWhile isPySpace).length (s.takeWhile isPySpace) (s.dropWhile isPySpace)
      (d, rest) h
    rwa [List.takeWhile_append_dropWhile] at hmain

theorem noCodeS2_spec {s code desc rest : List Char}
    (h : noCodeS2 s = some (code, desc, rest)) :
    rest <:+ s ∧ lookaheadOk rest = true := by
  unfold noCodeS2 at h
  split at h
  · rename_i d' r' heq
    cases h
    exact s2Desc_spec heq
  · exact Option.noConfusion h

theorem codeS2Desc_spec {s code desc rest : List Char}
    (h : codeS2Desc s = some (code, desc, rest)) :
    rest <:+ s ∧ lookaheadOk rest = true := by
  unfold codeS2Desc at h
  split at h
  · rename_i a b c dd r'
    split at h
    · split at h
      · rename_i desc' rest' heq
        cases h
        obtain ⟨h1, h2⟩ := s2Desc_spec heq
        exact ⟨h1.trans ⟨[a, b, c, dd], rfl⟩, h2⟩
      · exact noCodeS2_spec h
    · exact noCodeS2_spec h
  · exact noCodeS2_spec h

theorem s1Part_spec {s code desc rest : List Char}
    (h : s1Part s = some (code, desc, rest)) :
    rest <:+ s ∧ lookaheadOk rest = true := by
  unfold s1Part at h
  split at h
  · exact Option.noConfusion h
  · have hmain := tryFromSpaces_spec codeS2Desc (fun x => x.2.2)
      (fun u x hx => by rcases x with ⟨cd', d', r'⟩; exact codeS2Desc_spec hx)
      (s.takeWhile isPySpace).length (s.takeWhile isPySpace) (s.dropWhile isPySpace)
      (code, desc, rest) h
    rwa [List.takeWhile_append_dropWhile] at hmain

theorem transMatch_spec {line : List Char} {tp : TransParts} {ds : DateSplit}
    (h : transMatch line = some tp) (hd : transDateHead line = some ds) :
    tp.rest <:+ ds.rest ∧ lookaheadOk tp.rest = true := by
  unfold transMatch at h
  rw [hd] at h
  dsimp only at h
  split at h
  · exact Option.noConfusion h
  · rename_i code desc rest heq
    cases h
    exact s1Part_spec heq

theorem lookahead_token {s : List Char} (h : lookaheadOk s = true) :
    ∃ q, (matchNumAt (List.drop q s)).isSome = true := by
  unfold lookaheadOk at h
  rw [Bool.and_eq_true] at h
  refine ⟨(s.takeWhile isPySpace).length, ?_⟩
  rw [← dropWhile_eq_drop]
  exact h.2

theorem pyspace_ne_comma {x : Char} (h : isPySpace x = true) : x ≠ ',' := by
  intro he
  subst he
  exact absurd h (by decide)

theorem digit_ne_comma {x : Char} (h : x.isDigit = true) : x ≠ ',' := by
  intro he
  subst he
  exact absurd h (by decide)

theorem transDateHead_split {line : List Char} {ds : DateSplit}
    (h : transDateHead line = some ds) :
    line = ds.pre ++ ds.rest ∧ ∀ c ∈ ds.pre, c ≠ ',' := by
  unfold transDateHead at h
  split at h
  · rename_i a b r1 heq1
    split at h
    · rename_i hab
      split at h
      · exact Option.noConfusion h
      · split at h
        · rename_i c d r2 heq2
          split at h
          · rename_i hcd
            split at h
            · exact Option.noConfusion h
            · split at h
              · rename_i e f r3 heq3
                split at h
                · rename_i hef
                  cases h
                  rw [Bool.and_eq_true] at hab hcd hef
                  have e1 : line = line.takeWhile isPySpace ++ (a :: b :: r1) := by
                    rw [← heq1, List.takeWhile_append_dropWhile]
                  have e2 : r1 = r1.takeWhile isPySpace ++ (c :: d :: r2) := by
                    rw [← heq2, List.takeWhile_append_dropWhile]
                  have e3 : r2 = r2.takeWhile isPySpace ++ (e :: f :: r3) := by
                    rw [← heq3, List.takeWhile_append_dropWhile]
                  constructor
                  · conv_lhs => rw [e1]
                    conv_lhs => rw [e2]
                    conv_lhs => rw [e3]
                    simp [List.append_assoc]
                  · intro x hx
                    simp only [List.mem_append, List.mem_cons, List.mem_singleton,
                      List.not_mem_nil, or_false] at hx
                    rcases hx with ((((hx | hx | hx) | hx) | hx | hx) | hx) | hx | hx
                    · exact pyspace_ne_comma (List.mem_takeWhile_imp hx)
                    · subst hx; exact digit_ne_comma hab.1
                    · subst hx; exact digit_ne_comma hab.2
                    · exact pyspace_ne_comma (List.mem_takeWhile_imp hx)
                    · subst hx; exact digit_ne_comma hcd.1
                    · subst hx; exact digit_ne_comma hcd.2
                    · exact pyspace_ne_comma (List.mem_takeWhile_imp hx)
                    · subst hx; exact digit_ne_comma hef.1
                    · subst hx; exact digit_ne_comma hef.2
                · exact Option.noConfusion h
              · exact Option.noConfusion h
          · exact Option.noConfusion h
        · exact Option.noConfusion h
    · exact Option.noConfusion h
  · exact Option.noConfusion h

theorem ruleSaldoAnterior_none_of_few {line : List Char}
    (h : (findallNum line).length ≤ 1) : ruleSaldoAnterior line = none := by
  unfold ruleSaldoAnterior
  split
  · rcases hrev : (findallNum line).reverse with _ | ⟨a, _ | ⟨b, t⟩⟩
    · rfl
    · rfl
    · exfalso
      have hlen := congrArg List.length hrev
      simp at hlen
      omega
  · rfl

theorem rulePagos_none_of_few {line : List Char}
    (h : (findallNum line).length ≤ 1) : rulePagos line = none := by
  unfold rulePagos
  split
  · cases hds : dateSearch line with
    | none => rfl
    | some d =>
      rcases hrev : (findallNum line).reverse with _ | ⟨a, _ | ⟨b, t⟩⟩
      · rfl
      · rfl
      · exfalso
        have hlen := congrArg List.length hrev
        simp at hlen
        omega
  · rfl

theorem ruleSeguro_none_of_few {line : List Char}
    (h : (findallNum line).length ≤ 1) : ruleSeguro line = none := by
  unfold ruleSeguro
  split
  · rcases hfa : findallNum line with _ | ⟨a, _ | ⟨b, t⟩⟩
    · rfl
    · rfl
    · exfalso
      have hlen := congrArg List.length hfa
      simp at hlen
      omega
  · rfl

/-- C7: every record the classifier emits carries a non-empty kind (its
Tipo is one of the four non-empty tags; the local amount is present by
construction, every return site of parse_line assigning it a parsed
float); and a line matching the general transaction date prefix whose
remainder after that prefix contains no amount token yields no match at
all — no rule can fire, because the special rules need two tokens and the
transaction rule needs its lookahead to find a token inside that
remainder. -/
theorem parse_line_invariants :
    (∀ (l : List Char) (r : Record), parse_line l = some r → r.Tipo ≠ []) ∧
    (∀ (l : List Char) (ds : DateSplit), transDateHead (rstrip l) = some ds →
      findallNum ds.rest = [] → parse_line l = none) := by
  constructor
  · intro l r h
    unfold parse_line at h
    split at h
    · exact Option.noConfusion h
    · split at h
      · rename_i r1 h1
        cases h
        rw [ruleSaldoAnterior_tipo h1]
        decide
      · split at h
        · rename_i r2 h2
          cases h
          rw [rulePagos_tipo h2]
          decide
        · unfold rulesAfterPagos at h
          split at h
          · rename_i r3 h3
            cases h
            rw [ruleSeguro_tipo h3]
            decide
          · split at h
            · rename_i r4 h4
              cases h
              rw [ruleSaldoContado_tipo h4]
              decide
            · rw [ruleTrans_tipo h]
              decide
  · intro l ds hdate hrem
    have hsuff : ∀ p, matchNumAt (List.drop p ds.rest) = none := findallNum_nil_suffix hrem
    obtain ⟨hsplit, hpre⟩ := transDateHead_split hdate
    have hbound : (findallNum (rstrip l)).length ≤ 1 := by
      rw [hsplit]
      exact findall_prefix_bound (ds.pre ++ ds.rest).length ds.pre ds.rest le_rfl hpre hsuff
    have htrans_none : transMatch (rstrip l) = none := by
      rcases hm : transMatch (rstrip l) with _ | tp
      · rfl
      · exfalso
        obtain ⟨hsuf2, hlook⟩ := transMatch_spec hm hdate
        obtain ⟨q, hq⟩ := lookahead_token hlook
        obtain ⟨t0, ht0⟩ := hsuf2
        have hdropeq : tp.rest = List.drop t0.length ds.rest := by
          rw [← ht0, List.drop_left]
        rw [hdropeq, List.drop_drop, hsuff (t0.length + q)] at hq
        simp at hq
    unfold parse_line
    split
    · rfl
    · rw [ruleSaldoAnterior_none_of_few hbound, rulePagos_none_of_few hbound]
      unfold rulesAfterPagos
      rw [ruleSeguro_none_of_few hbound, ruleSaldoContado_none_of_few hbound]
      unfold ruleTrans
      rw [htrans_none]

theorem parse_line_invariants_witness :
    (∃ r, parse_line ("SALDO CONTADO      100,00    200,00".toList) = some r ∧
      r.Tipo ≠ []) ∧
    parse_line ("15 03 24 JUST SOME WORDS HERE".toList) = none :=
  ⟨⟨⟨[], [], "SALDO FINAL".toList, [], 100, some 200, "Saldo".toList⟩, by decide,
    parse_line_invariants.1 ("SALDO CONTADO      100,00    200,00".toList)
      ⟨[], [], "SALDO FINAL".toList, [], 100, some 200, "Saldo".toList⟩ (by decide)⟩,
   parse_line_invariants.2 ("15 03 24 JUST SOME WORDS HERE".toList)
     ⟨"15 03 24".toList, "15".toList, "03".toList, "24".toList,
      " JUST SOME WORDS HERE".toList⟩ (by decide) (by decide)⟩
